import Mathlib

/-!
Verification development for the portfolio client script (src/script.js).

Each widget's logic is shallowly embedded as executable Lean definitions
translated directly from the JavaScript source; DOM reads/writes are made
explicit as record fields, timer handles are counted explicitly, and
JavaScript numbers are modelled as exact rationals (ℚ) or integers (ℤ).
-/

namespace Portfolio

/-! ## Testimonials carousel: goToSlide (script.js, initTestimonialsSlider)

JavaScript:
  function goToSlide(index) \x7b
    if (index < 0) index = cards.length - 1;
    if (index >= cards.length) index = 0;
    currentIndex = index;
    ... (track transform and dot classes are display-only)
  \x7d
The function below returns the resulting currentIndex for a carousel of
`len` cards. -/
def goToSlide (len : ℕ) (index : ℤ) : ℤ :=
  let i := if index < 0 then (len : ℤ) - 1 else index
  if (len : ℤ) ≤ i then 0 else i

/-! ## Swipe handling in the touchend listener (script.js, initTestimonialsSlider)

JavaScript:
  const diff = startX - e.changedTouches[0].clientX;
  if (Math.abs(diff) > 50) \x7b
    goToSlide(diff > 0 ? currentIndex + 1 : currentIndex - 1);
  \x7d
Coordinates are modelled as exact rationals; the result is the index after
the gesture (unchanged when the drag magnitude is at most 50). -/
def swipeEnd (len : ℕ) (currentIndex : ℤ) (startX endX : ℚ) : ℤ :=
  let diff := startX - endX
  if 50 < |diff| then
    goToSlide len (if 0 < diff then currentIndex + 1 else currentIndex - 1)
  else currentIndex

/-- C2: for a carousel of length L ≥ 1 and a current index i in [0, L),
the next transition goToSlide (i+1) and the prev transition goToSlide (i-1)
both wrap modulo L; in particular next from L-1 yields 0 and prev from 0
yields L-1. -/
theorem goToSlide_wraps (L : ℕ) (i : ℤ) (hL : 1 ≤ L) (h0 : 0 ≤ i) (hiL : i < (L : ℤ)) :
    goToSlide L (i + 1) = (i + 1) % (L : ℤ) ∧ goToSlide L (i - 1) = (i - 1) % (L : ℤ) := by
  have hL1 : (1 : ℤ) ≤ (L : ℤ) := by exact_mod_cast hL
  constructor
  · unfold goToSlide
    have h1 : ¬ (i + 1 < 0) := by omega
    simp only [h1, if_false]
    by_cases h2 : (L : ℤ) ≤ i + 1
    · have hi : i + 1 = (L : ℤ) := by omega
      rw [if_pos h2, hi, Int.emod_self]
    · rw [if_neg h2, Int.emod_eq_of_lt (by omega) (by omega)]
  · unfold goToSlide
    by_cases h1 : i - 1 < 0
    · have hi : i = 0 := by omega
      have h2 : ¬ ((L : ℤ) ≤ (L : ℤ) - 1) := by omega
      simp only [h1, if_true, h2, if_false]
      subst hi
      have e2 : ((0 : ℤ) - 1 + (L : ℤ) * 1) % (L : ℤ) = ((0 : ℤ) - 1) % (L : ℤ) :=
        Int.add_mul_emod_self_left (0 - 1) (L : ℤ) 1
      have e1 : (0 : ℤ) - 1 + (L : ℤ) * 1 = (L : ℤ) - 1 := by ring
      rw [e1] at e2
      rw [← e2, Int.emod_eq_of_lt (by omega) (by omega)]
    · have h2 : ¬ ((L : ℤ) ≤ i - 1) := by omega
      simp only [h1, if_false, h2]
      rw [Int.emod_eq_of_lt (by omega) (by omega)]

/-- Witness for C2 at L = 3, i = 2: next from the last slide wraps to 0,
prev from slide 2 goes to slide 1. -/
theorem goToSlide_wraps_witness :
    goToSlide 3 (2 + 1) = (2 + 1) % (3 : ℤ) ∧ goToSlide 3 (2 - 1) = (2 - 1) % (3 : ℤ) :=
  goToSlide_wraps 3 2 (by norm_num) (by norm_num) (by norm_num)

/-- C6: a swipe advances the carousel iff its magnitude exceeds 50 pixels:
a right-to-left drag (endX more than 50 left of startX) triggers next, a
left-to-right one triggers prev, and a drag of magnitude at most 50 leaves
the index unchanged; on a 3-card carousel at index 0, delta -60 yields
index 1 and delta +60 yields index 2 by wrap. -/
theorem swipeEnd_spec (L : ℕ) (i : ℤ) (startX endX : ℚ)
    (hL : 1 ≤ L) (h0 : 0 ≤ i) (hiL : i < (L : ℤ)) :
    (|startX - endX| ≤ 50 → swipeEnd L i startX endX = i)
    ∧ (50 < startX - endX → swipeEnd L i startX endX = (i + 1) % (L : ℤ))
    ∧ (50 < endX - startX → swipeEnd L i startX endX = (i - 1) % (L : ℤ))
    ∧ swipeEnd 3 0 startX (startX - 60) = 1
    ∧ swipeEnd 3 0 startX (startX + 60) = 2 := by
  obtain ⟨hnext, hprev⟩ := goToSlide_wraps L i hL h0 hiL
  refine ⟨?_, ?_, ?_, ?_, ?_⟩
  · intro h
    unfold swipeEnd
    rw [if_neg (by simpa using not_lt_of_le h)]
  · intro h
    have habs : 50 < |startX - endX| := lt_of_lt_of_le h (le_abs_self _)
    have hpos : 0 < startX - endX := by linarith
    unfold swipeEnd
    rw [if_pos habs, if_pos hpos, hnext]
  · intro h
    have hneg : startX - endX < 0 := by linarith
    have habs : 50 < |startX - endX| := by
      rw [abs_of_neg hneg]; linarith
    unfold swipeEnd
    rw [if_pos habs, if_neg (by linarith), hprev]
  · unfold swipeEnd
    have hd : startX - (startX - 60) = 60 := by ring
    rw [hd]
    norm_num [goToSlide]
  · unfold swipeEnd
    have hd : startX - (startX + 60) = -60 := by ring
    rw [hd]
    norm_num [goToSlide]

/-- Witness for C6: a 3-card carousel at index 0; a 40-pixel drag is ignored,
a 60-pixel right-to-left drag advances to index 1. -/
theorem swipeEnd_spec_witness :
    (|(100 : ℚ) - 60| ≤ 50 → swipeEnd 3 0 100 60 = 0)
    ∧ (50 < (100 : ℚ) - 60 → swipeEnd 3 0 100 60 = (0 + 1) % (3 : ℤ))
    ∧ (50 < (60 : ℚ) - 100 → swipeEnd 3 0 100 60 = (0 - 1) % (3 : ℤ))
    ∧ swipeEnd 3 0 100 (100 - 60) = 1
    ∧ swipeEnd 3 0 100 (100 + 60) = 2 :=
  swipeEnd_spec 3 0 100 60 (by norm_num) (by norm_num) (by norm_num)

/-! ## Counter animation (script.js, animateCounter / animateFunCounter)

JavaScript:
  const increment = target / steps;
  let current = 0;
  const timer = setInterval(() => \x7b
    current += increment;
    if (current >= target) \x7b element.textContent = target; clearInterval(timer); \x7d
    else \x7b element.textContent = Math.floor(current); \x7d
  \x7d, stepTime);
with steps = 50 (animateCounter) and steps = 60 (animateFunCounter); the
floating-point accumulator is modelled as an exact rational.  The function
below runs the interval ticks on a fuel budget and returns the final
displayed value once the timer clears itself, or none if the fuel runs out
first. -/
def animateCounter (steps : ℕ) (target : ℤ) : ℕ → ℚ → Option ℤ
  | 0, _ => none
  | fuel + 1, current =>
    let c := current + (target : ℚ) / (steps : ℚ)
    if (target : ℚ) ≤ c then some target
    else animateCounter steps target fuel c

/-- The counter loop, started at accumulation ((s - n) * t) / s with n ticks of
fuel remaining (1 ≤ n ≤ s, positive target), clears on the tick where the
accumulation reaches the target and displays exactly the target. -/
theorem animateCounter_loop (s : ℕ) (t : ℤ) (hs : 0 < s) (ht : 0 < t) :
    ∀ n : ℕ, 1 ≤ n → n ≤ s →
      animateCounter s t n ((((s : ℚ) - (n : ℚ)) * (t : ℚ)) / (s : ℚ)) = some t := by
  have hsq : (0 : ℚ) < (s : ℚ) := by exact_mod_cast hs
  have htq : (0 : ℚ) < (t : ℚ) := by exact_mod_cast ht
  intro n
  induction n with
  | zero => intro h; omega
  | succ k ih =>
    intro _ hks
    by_cases hk : k = 0
    · subst hk
      have hc : (((s : ℚ) - 1) * (t : ℚ)) / (s : ℚ) + (t : ℚ) / (s : ℚ) = (t : ℚ) := by
        field_simp
        ring
      unfold animateCounter
      rw [show ((0 + 1 : ℕ) : ℚ) = 1 from by norm_num, hc, if_pos le_rfl]
    · have hk1 : 1 ≤ k := Nat.one_le_iff_ne_zero.mpr hk
      have hkq : (1 : ℚ) ≤ (k : ℚ) := by exact_mod_cast hk1
      have hc : (((s : ℚ) - ((k : ℚ) + 1)) * (t : ℚ)) / (s : ℚ) + (t : ℚ) / (s : ℚ)
          = (((s : ℚ) - (k : ℚ)) * (t : ℚ)) / (s : ℚ) := by
        field_simp
        ring
      have hlt : (((s : ℚ) - (k : ℚ)) * (t : ℚ)) / (s : ℚ) < (t : ℚ) := by
        rw [div_lt_iff₀ hsq]
        nlinarith
      unfold animateCounter
      simp only [Nat.cast_add, Nat.cast_one]
      rw [hc, if_neg (not_le_of_lt hlt)]
      exact ih hk1 (by omega)

/-- C3: for every target integer and every step count s ≥ 1 (the source uses
50 and 60), the counter animation clears its own timer within s ticks and the
final displayed value is exactly the target integer, not the floating
accumulation. -/
theorem animateCounter_exact (steps : ℕ) (target : ℤ) (hs : 1 ≤ steps) :
    animateCounter steps target steps 0 = some target := by
  obtain ⟨n, rfl⟩ : ∃ n, steps = n + 1 := ⟨steps - 1, by omega⟩
  by_cases ht : 0 < target
  · have h0 : (0 : ℚ) = ((((n + 1 : ℕ) : ℚ) - ((n + 1 : ℕ) : ℚ)) * (target : ℚ)) / ((n + 1 : ℕ) : ℚ) := by
      simp
    rw [h0]
    exact animateCounter_loop (n + 1) target (by omega) ht (n + 1) (by omega) le_rfl
  · have htq : (target : ℚ) ≤ 0 := by exact_mod_cast not_lt.mp ht
    have hsq : (1 : ℚ) ≤ ((n + 1 : ℕ) : ℚ) := by exact_mod_cast hs
    have hfirst : (target : ℚ) ≤ 0 + (target : ℚ) / ((n + 1 : ℕ) : ℚ) := by
      rw [zero_add, le_div_iff₀ (by linarith)]
      nlinarith
    unfold animateCounter
    rw [if_pos hfirst]

/-- Witness for C3 at the source's parameters: animateCounter with 50 steps
and target 85 (a stat-number value) finishes displaying exactly 85. -/
theorem animateCounter_exact_witness : animateCounter 50 85 50 0 = some 85 :=
  animateCounter_exact 50 85 (by norm_num)

/-! ## Theme toggle (script.js, initThemeToggle)

State visible to the widget: whether the body carries the light-theme class,
whether the icon shows the sun, and the persisted localStorage value under
the key portfolio-theme. -/
structure ThemeState where
  bodyLight : Bool
  iconSun : Bool
  stored : Option String
deriving DecidableEq

/-- Startup path of initThemeToggle: read the saved theme; if it equals
"light", add the light-theme body class and swap the icon to the sun;
otherwise leave the default dark state. The stored value is not rewritten
at startup. -/
def initThemeToggle (saved : Option String) : ThemeState :=
  if saved = some "light" then ⟨true, true, saved⟩ else ⟨false, false, saved⟩

/-- Click handler of the theme toggle: flip the light-theme body class, then
set the icon and persist "light" or "dark" according to the new state. -/
def themeToggle (s : ThemeState) : ThemeState :=
  let isLight := !s.bodyLight
  if isLight then ⟨true, true, some "light"⟩ else ⟨false, false, some "dark"⟩

/-- C5: starting from either persisted theme, toggling twice restores both
the body class state and the persisted portfolio-theme value, and re-reading
the persisted key at the next startup reproduces the original startup
state. -/
theorem themeToggle_double_roundtrip (v : String) (hv : v = "light" ∨ v = "dark") :
    themeToggle (themeToggle (initThemeToggle (some v))) = initThemeToggle (some v)
    ∧ (themeToggle (themeToggle (initThemeToggle (some v)))).stored = some v
    ∧ initThemeToggle ((themeToggle (themeToggle (initThemeToggle (some v)))).stored)
        = initThemeToggle (some v) := by
  rcases hv with hv | hv <;> subst hv <;> refine ⟨by decide, by decide, by decide⟩

/-- Witness for C5 at the persisted value "dark". -/
theorem themeToggle_double_roundtrip_witness :
    themeToggle (themeToggle (initThemeToggle (some "dark"))) = initThemeToggle (some "dark")
    ∧ (themeToggle (themeToggle (initThemeToggle (some "dark")))).stored = some "dark"
    ∧ initThemeToggle ((themeToggle (themeToggle (initThemeToggle (some "dark")))).stored)
        = initThemeToggle (some "dark") :=
  themeToggle_double_roundtrip "dark" (Or.inr rfl)

/-! ## Notifications (script.js, showNotification)

JavaScript:
  document.querySelector(selNotification)?.remove();
  const notification = document.createElement(...);
  document.body.appendChild(notification);
  setTimeout(() => notification.remove(), 4000);
The attached notification nodes are modelled as a list of ids in document
order; querySelector removes the first one, appendChild adds a fresh id at
the end, and each pending setTimeout may later remove its own id (a no-op
if the node is already gone). -/
structure NotifState where
  attached : List ℕ
  nextId : ℕ

/-- One call of showNotification: remove the first existing notification
node, then append a freshly created one. -/
def showNotification (s : NotifState) : NotifState :=
  ⟨s.attached.tail ++ [s.nextId], s.nextId + 1⟩

/-- Events that can touch the notification nodes: a showNotification call, or
a 4-second removal timeout firing for a given node id. -/
inductive NotifEvent where
  | callShow
  | timeoutFire (id : ℕ)

def notifStep (s : NotifState) : NotifEvent → NotifState
  | NotifEvent.callShow => showNotification s
  | NotifEvent.timeoutFire id => ⟨s.attached.erase id, s.nextId⟩

def notifRun (evs : List NotifEvent) : NotifState :=
  evs.foldl notifStep ⟨[], 0⟩

theorem notifStep_length_le (s : NotifState) (e : NotifEvent)
    (h : s.attached.length ≤ 1) : (notifStep s e).attached.length ≤ 1 := by
  cases e with
  | callShow =>
    simp only [notifStep, showNotification, List.length_append, List.length_tail,
      List.length_singleton]
    omega
  | timeoutFire id =>
    simp only [notifStep]
    exact le_trans ((s.attached.erase_sublist id).length_le) h

theorem notifRun_aux (evs : List NotifEvent) :
    ∀ s : NotifState, s.attached.length ≤ 1 → ((evs.foldl notifStep s).attached).length ≤ 1 := by
  induction evs with
  | nil => intro s h; simpa using h
  | cons e rest ih =>
    intro s h
    simpa using ih (notifStep s e) (notifStep_length_le s e h)

/-- C10: starting from a document with no notification node, any sequence of
showNotification calls and removal-timeout firings, in any order, leaves at
most one notification node attached at every point. -/
theorem showNotification_at_most_one (evs : List NotifEvent) :
    (notifRun evs).attached.length ≤ 1 :=
  notifRun_aux evs ⟨[], 0⟩ (by simp)

/-! ## Contact form submit path (script.js, initContactForm) and the
testimonials initializer guard (script.js, initTestimonialsSlider)

The document shape each initializer can encounter is abstracted to presence
flags for the elements it touches and to whether the three required form
fields are nonempty. -/
structure ContactDoc where
  formPresent : Bool
  submitBtnPresent : Bool
  hasName : Bool
  hasEmail : Bool
  hasMessage : Bool
deriving DecidableEq

inductive ContactOutcome where
  | noForm
  | notifyMissingFields
  | sending
deriving DecidableEq

/-- initContactForm plus one submit event: if the form element is missing the
initializer returns early and the submit handler is never attached; on
submit, missing required fields produce an error notification and return;
otherwise the handler reads form.querySelector for the submit button and
dereferences it (submitBtn.innerHTML, submitBtn.disabled) with no guard, so
a document whose form lacks a submit button raises a TypeError, modelled as
Except.error. -/
def initContactForm (d : ContactDoc) : Except Unit ContactOutcome :=
  if !d.formPresent then Except.ok ContactOutcome.noForm
  else if !(d.hasName && d.hasEmail && d.hasMessage) then
    Except.ok ContactOutcome.notifyMissingFields
  else if !d.submitBtnPresent then Except.error ()
  else Except.ok ContactOutcome.sending

structure SliderDoc where
  trackPresent : Bool
  prevPresent : Bool
  nextPresent : Bool
  dotsPresent : Bool
deriving DecidableEq

/-- Guard of initTestimonialsSlider: if the track, either arrow button, or
the dots container is missing, the initializer returns before touching any
of them; the Bool records whether the widget was wired up. -/
def initTestimonialsSlider (d : SliderDoc) : Except Unit Bool :=
  if !(d.trackPresent && d.prevPresent && d.nextPresent && d.dotsPresent) then
    Except.ok false
  else Except.ok true

/-- C9 counterexample: the claim that every widget path is a guarded no-op on
missing elements fails on the contact-form submit path: with the form present
and all fields filled but the submit button absent, the handler dereferences
a missing element and errors. -/
theorem contactForm_guard_counterexample :
    ¬ (∀ d : ContactDoc, (initContactForm d).isOk = true) := by
  intro h
  have := h ⟨true, false, true, true, true⟩
  simp [initContactForm, Except.isOk, Except.toBool] at this

/-- C9 amended: the testimonials initializer is a guarded no-op whenever any
of its elements is missing and never errors, and the contact-form path never
errors provided any reachable submit (form present, all required fields
filled) finds a submit button inside the form; without that proviso the
submit path is the one unguarded dereference. -/
theorem missing_element_guards (d : ContactDoc) (sd : SliderDoc)
    (hbtn : d.formPresent = true → d.hasName = true → d.hasEmail = true →
      d.hasMessage = true → d.submitBtnPresent = true) :
    (initContactForm d).isOk = true
    ∧ (initTestimonialsSlider sd).isOk = true
    ∧ (sd.trackPresent = false → initTestimonialsSlider sd = Except.ok false) := by
  refine ⟨?_, ?_, ?_⟩
  · rcases d with ⟨fp, bp, n, e, m⟩
    cases fp <;> cases bp <;> cases n <;> cases e <;> cases m <;>
      simp_all [initContactForm, Except.isOk, Except.toBool]
  · rcases sd with ⟨t, p, n, dd⟩
    cases t <;> cases p <;> cases n <;> cases dd <;>
      simp [initTestimonialsSlider, Except.isOk, Except.toBool]
  · intro ht
    rcases sd with ⟨t, p, n, dd⟩
    cases ht
    simp [initTestimonialsSlider]

/-- Witness for C9 amended: a document missing the contact form entirely and
missing the testimonial track is handled by the guards as a no-op. -/
theorem missing_element_guards_witness :
    (initContactForm ⟨false, false, false, false, false⟩).isOk = true
    ∧ (initTestimonialsSlider ⟨false, true, true, true⟩).isOk = true
    ∧ ((false : Bool) = false →
        initTestimonialsSlider ⟨false, true, true, true⟩ = Except.ok false) :=
  missing_element_guards ⟨false, false, false, false, false⟩ ⟨false, true, true, true⟩
    (by intro h; cases h)

/-! ## Autoplay timer ownership (script.js, initTestimonialsSlider)

The widget keeps one variable autoPlayInterval holding the most recently
created interval handle. startAutoPlay overwrites that variable with a fresh
setInterval handle without clearing the old one; stopAutoPlay clears only
the handle currently stored. The state below counts the live intervals:
curLive says whether the stored handle is live, leaked counts live intervals
whose handle was overwritten and can no longer be cleared. -/
structure AutoplayState where
  leaked : ℕ
  curLive : Bool
  isDragging : Bool
deriving DecidableEq

def stopAutoPlay (s : AutoplayState) : AutoplayState :=
  ⟨s.leaked, false, s.isDragging⟩

def startAutoPlay (s : AutoplayState) : AutoplayState :=
  ⟨s.leaked + (if s.curLive then 1 else 0), true, s.isDragging⟩

/-- User interactions that touch the autoplay timer. -/
inductive SliderEvent where
  | prevClick
  | nextClick
  | dotClick (i : ℕ)
  | touchStart
  | touchEnd
deriving DecidableEq

/-- Event semantics of the listeners in initTestimonialsSlider: the arrow
buttons and dots stop then restart autoplay; touchstart records the drag and
stops autoplay; touchend is a no-op unless a drag is in progress, and then
restarts autoplay without stopping first. -/
def sliderStep (s : AutoplayState) : SliderEvent → AutoplayState
  | SliderEvent.prevClick => startAutoPlay (stopAutoPlay s)
  | SliderEvent.nextClick => startAutoPlay (stopAutoPlay s)
  | SliderEvent.dotClick _ => startAutoPlay (stopAutoPlay s)
  | SliderEvent.touchStart => stopAutoPlay ⟨s.leaked, s.curLive, true⟩
  | SliderEvent.touchEnd =>
    if s.isDragging then startAutoPlay ⟨s.leaked, s.curLive, false⟩ else s

/-- Number of concurrently live autoplay intervals. -/
def liveTimers (s : AutoplayState) : ℕ :=
  s.leaked + (if s.curLive then 1 else 0)

/-- State right after initTestimonialsSlider wires the widget and calls
startAutoPlay once. -/
def sliderInit : AutoplayState :=
  startAutoPlay ⟨0, false, false⟩

def sliderRun (evs : List SliderEvent) : AutoplayState :=
  evs.foldl sliderStep sliderInit

/-- C7 counterexample: the at-most-one-live-timer claim fails: a touchstart
(which stops autoplay and leaves the drag in progress), then a next-button
click (stop + start), then the touchend of the drag (start without stop)
leaves two live intervals, the first of them unclearable. -/
theorem autoplay_single_timer_counterexample :
    ¬ (∀ evs : List SliderEvent, liveTimers (sliderRun evs) ≤ 1) := by
  intro h
  have := h [SliderEvent.touchStart, SliderEvent.nextClick, SliderEvent.touchEnd]
  simp [sliderRun, sliderInit, sliderStep, startAutoPlay, stopAutoPlay, liveTimers] at this

/-- A click event is only admitted while no touch drag is in progress;
touch events are always admitted. -/
def allowedEvent (s : AutoplayState) : SliderEvent → Bool
  | SliderEvent.prevClick => !s.isDragging
  | SliderEvent.nextClick => !s.isDragging
  | SliderEvent.dotClick _ => !s.isDragging
  | SliderEvent.touchStart => true
  | SliderEvent.touchEnd => true

def legalFrom (s : AutoplayState) : List SliderEvent → Bool
  | [] => true
  | e :: rest => allowedEvent s e && legalFrom (sliderStep s e) rest

/-- Invariant carried through legal runs: nothing has leaked, and while a
drag is in progress the stored handle is not live. -/
def AutoplayInv (s : AutoplayState) : Prop :=
  s.leaked = 0 ∧ (s.isDragging = true → s.curLive = false)

theorem autoplay_inv_step (s : AutoplayState) (e : SliderEvent)
    (hinv : AutoplayInv s) (hok : allowedEvent s e = true) :
    AutoplayInv (sliderStep s e) := by
  obtain ⟨hleak, hdrag⟩ := hinv
  cases e with
  | prevClick =>
    simp only [allowedEvent, Bool.not_eq_true'] at hok
    exact ⟨by simp [sliderStep, startAutoPlay, stopAutoPlay, hleak], by
      intro h; simp [sliderStep, startAutoPlay, stopAutoPlay, hok] at h⟩
  | nextClick =>
    simp only [allowedEvent, Bool.not_eq_true'] at hok
    exact ⟨by simp [sliderStep, startAutoPlay, stopAutoPlay, hleak], by
      intro h; simp [sliderStep, startAutoPlay, stopAutoPlay, hok] at h⟩
  | dotClick i =>
    simp only [allowedEvent, Bool.not_eq_true'] at hok
    exact ⟨by simp [sliderStep, startAutoPlay, stopAutoPlay, hleak], by
      intro h; simp [sliderStep, startAutoPlay, stopAutoPlay, hok] at h⟩
  | touchStart =>
    exact ⟨by simp [sliderStep, stopAutoPlay, hleak], by
      simp [sliderStep, stopAutoPlay]⟩
  | touchEnd =>
    by_cases hd : s.isDragging = true
    · have hcur : s.curLive = false := hdrag hd
      refine ⟨?_, ?_⟩
      · simp [sliderStep, hd, startAutoPlay, hcur, hleak]
      · intro h
        simp [sliderStep, hd, startAutoPlay] at h
    · simp only [Bool.not_eq_true] at hd
      refine ⟨?_, ?_⟩
      · simp [sliderStep, hd, hleak]
      · intro h
        simp [sliderStep, hd] at h

theorem autoplay_inv_run (evs : List SliderEvent) :
    ∀ s : AutoplayState, AutoplayInv s → legalFrom s evs = true →
      AutoplayInv (evs.foldl sliderStep s) := by
  induction evs with
  | nil => intro s h _; simpa using h
  | cons e rest ih =>
    intro s h hlegal
    simp only [legalFrom, Bool.and_eq_true] at hlegal
    simpa using ih (sliderStep s e) (autoplay_inv_step s e h hlegal.1) hlegal.2

/-- C7 amended: at most one autoplay interval is ever live across any
sequence of user interactions in which no button or dot click is delivered
while a touch drag is in progress (between a touchstart and its touchend);
the unrestricted claim is refuted by autoplay_single_timer_counterexample. -/
theorem autoplay_single_timer (evs : List SliderEvent)
    (hlegal : legalFrom sliderInit evs = true) :
    liveTimers (sliderRun evs) ≤ 1 := by
  have hinv : AutoplayInv sliderInit := by
    constructor <;> simp [sliderInit, startAutoPlay]
  obtain ⟨hleak, _⟩ := autoplay_inv_run evs sliderInit hinv hlegal
  unfold sliderRun liveTimers
  rw [hleak]
  split <;> omega

/-- Witness for C7 amended: a swipe followed by a next click keeps a single
live autoplay interval. -/
theorem autoplay_single_timer_witness :
    liveTimers (sliderRun [SliderEvent.touchStart, SliderEvent.touchEnd,
      SliderEvent.nextClick]) ≤ 1 :=
  autoplay_single_timer [SliderEvent.touchStart, SliderEvent.touchEnd,
    SliderEvent.nextClick] (by decide)

/-! ## Navigation highlighting (script.js, updateActiveNavLink)

JavaScript:
  const sections = document.querySelectorAll(selSectionsWithId);
  sections.forEach(section => \x7b
    const sectionHeight = section.offsetHeight;
    const sectionTop = section.offsetTop - 100;
    const sectionId = section.getAttribute(attrId);
    if (scrollY > sectionTop && scrollY <= sectionTop + sectionHeight) \x7b
      DOM.navLinks.forEach(link => \x7b
        link.classList.toggle(clsActive, link.getAttribute(attrHref) === hash + sectionId);
      \x7d);
    \x7d
  \x7d);
Sections are modelled by id, offsetTop and offsetHeight; nav links by href
and the presence of the active class. -/
structure Sect where
  id : String
  offsetTop : ℚ
  offsetHeight : ℚ
deriving DecidableEq

structure NavLink where
  href : String
  active : Bool
deriving DecidableEq

/-- The section-bounds test of updateActiveNavLink at scroll offset Y:
offsetTop - 100 < Y and Y ≤ offsetTop - 100 + offsetHeight. -/
def sectionMatches (scrollY : ℚ) (sec : Sect) : Bool :=
  decide (sec.offsetTop - 100 < scrollY) &&
    decide (scrollY ≤ sec.offsetTop - 100 + sec.offsetHeight)

/-- The inner forEach over nav links: every link's active class is set to
whether its href equals the given target. -/
def setActiveByHref (links : List NavLink) (targetHref : String) : List NavLink :=
  links.map (fun l => ⟨l.href, l.href == targetHref⟩)

/-- One pass of updateActiveNavLink: fold over the sections in document
order; each section whose bounds contain the scroll offset rewrites every
link's active class. -/
def updateActiveNavLink (sections : List Sect) (links : List NavLink) (scrollY : ℚ) :
    List NavLink :=
  sections.foldl
    (fun ls sec =>
      if sectionMatches scrollY sec then setActiveByHref ls ("#" ++ sec.id) else ls)
    links

theorem setActiveByHref_overwrite (ls : List NavLink) (a b : String) :
    setActiveByHref (setActiveByHref ls a) b = setActiveByHref ls b := by
  unfold setActiveByHref
  rw [List.map_map]
  rfl

/-- Closed form of the fold: the result is the input list when no section
matches, and otherwise is the rewrite by the last matching section. -/
theorem updateActiveNavLink_closed (sections : List Sect) (links : List NavLink) (Y : ℚ) :
    updateActiveNavLink sections links Y =
      (match (sections.filter (sectionMatches Y)).getLast? with
       | none => links
       | some sec => setActiveByHref links ("#" ++ sec.id)) := by
  induction sections using List.reverseRecOn with
  | nil => rfl
  | append_singleton ss s ih =>
    unfold updateActiveNavLink at ih ⊢
    rw [List.foldl_append, List.filter_append, ih]
    by_cases hs : sectionMatches Y s = true
    · have hfil : List.filter (sectionMatches Y) [s] = [s] := by
        simp [List.filter_cons, hs]
      rw [hfil, List.getLast?_concat]
      cases hl : (List.filter (sectionMatches Y) ss).getLast? with
      | none =>
        simp only [List.foldl_cons, List.foldl_nil, if_pos hs]
      | some sec =>
        simp only [List.foldl_cons, List.foldl_nil, if_pos hs]
        exact setActiveByHref_overwrite links _ _
    · have hfil : List.filter (sectionMatches Y) [s] = [] := by
        simp [List.filter_cons, hs]
      rw [hfil, List.append_nil]
      simp only [List.foldl_cons, List.foldl_nil, if_neg hs]

theorem setActiveByHref_at_most_one (links : List NavLink) (t : String)
    (hnodup : (links.map NavLink.href).Nodup) :
    ((setActiveByHref links t).filter (fun l => l.active)).length ≤ 1 := by
  have h1 : ((setActiveByHref links t).filter (fun l => l.active)).length
      = List.countP (fun l => l.active) (setActiveByHref links t) :=
    (List.countP_eq_length_filter _ _).symm
  rw [h1]
  unfold setActiveByHref
  rw [List.countP_map]
  have h2 : List.countP ((fun l : NavLink => l.active) ∘ fun l : NavLink => (⟨l.href, l.href == t⟩ : NavLink)) links
      = List.countP ((fun h => h == t) ∘ NavLink.href) links := rfl
  rw [h2, ← List.countP_map]
  have h3 : List.countP (fun h => h == t) (links.map NavLink.href)
      = List.count t (links.map NavLink.href) := rfl
  rw [h3]
  exact List.nodup_iff_count_le_one.mp hnodup t

/-- C1: one pass of updateActiveNavLink at scroll offset Y, on a nav bar
whose link hrefs are pairwise distinct: if no section's bounds contain Y the
links, in particular the previously active one, are left unchanged; if some
section matches, every link's active class is set by comparing its href
against the last matching section in iteration order, so at most one link
is left carrying the active class. -/
theorem updateActiveNavLink_spec (sections : List Sect) (links : List NavLink) (Y : ℚ)
    (hnodup : (links.map NavLink.href).Nodup) :
    (sections.filter (sectionMatches Y) = [] → updateActiveNavLink sections links Y = links)
    ∧ (∀ sec : Sect, (sections.filter (sectionMatches Y)).getLast? = some sec →
        updateActiveNavLink sections links Y = setActiveByHref links ("#" ++ sec.id)
        ∧ ((updateActiveNavLink sections links Y).filter (fun l => l.active)).length ≤ 1) := by
  constructor
  · intro hnone
    rw [updateActiveNavLink_closed, hnone]
    rfl
  · intro sec hlast
    have he : updateActiveNavLink sections links Y = setActiveByHref links ("#" ++ sec.id) := by
      rw [updateActiveNavLink_closed, hlast]
    exact ⟨he, by rw [he]; exact setActiveByHref_at_most_one links _ hnodup⟩

/-- Witness for C1: two stacked sections and three distinct nav links; at
scroll offset 450 the second section (home: top 0 height 600, about: top 500
height 400, bounds overlap at 450) is the last match and only the about link
ends up active. -/
theorem updateActiveNavLink_spec_witness :
    (([⟨"home", 0, 600⟩, ⟨"about", 500, 400⟩] : List Sect).filter (sectionMatches 450) = [] →
      updateActiveNavLink [⟨"home", 0, 600⟩, ⟨"about", 500, 400⟩]
        [⟨"#home", false⟩, ⟨"#about", false⟩, ⟨"#contact", true⟩] 450
        = [⟨"#home", false⟩, ⟨"#about", false⟩, ⟨"#contact", true⟩])
    ∧ (∀ sec : Sect,
        (([⟨"home", 0, 600⟩, ⟨"about", 500, 400⟩] : List Sect).filter
          (sectionMatches 450)).getLast? = some sec →
        updateActiveNavLink [⟨"home", 0, 600⟩, ⟨"about", 500, 400⟩]
          [⟨"#home", false⟩, ⟨"#about", false⟩, ⟨"#contact", true⟩] 450
          = setActiveByHref [⟨"#home", false⟩, ⟨"#about", false⟩, ⟨"#contact", true⟩]
              ("#" ++ sec.id)
        ∧ ((updateActiveNavLink [⟨"home", 0, 600⟩, ⟨"about", 500, 400⟩]
            [⟨"#home", false⟩, ⟨"#about", false⟩, ⟨"#contact", true⟩] 450).filter
            (fun l => l.active)).length ≤ 1) :=
  updateActiveNavLink_spec [⟨"home", 0, 600⟩, ⟨"about", 500, 400⟩]
    [⟨"#home", false⟩, ⟨"#about", false⟩, ⟨"#contact", true⟩] 450 (by decide)

/-! ## Cursor easing loop (script.js, updateAll)

JavaScript:
  const lerp = 0.15;
  State.cursorX += (State.mouseX - State.cursorX) * lerp;
  State.cursorY += (State.mouseY - State.cursorY) * lerp;
  ... write the eased position to the cursor elements ...
  const dx = State.mouseX - State.cursorX;
  const dy = State.mouseY - State.cursorY;
  if (Math.abs(dx) < 0.5 && Math.abs(dy) < 0.5) \x7b cursorActive = false; return; \x7d
  requestAnimationFrame(updateAll);
Positions are modelled as exact rationals; lerp = 3/20. The loop below runs
the frames on a fuel budget: some p means the loop reached the stopping test,
cleared cursorActive and stopped at eased position p; none means the fuel ran
out before convergence. -/
def lerpStep (m c : ℚ) : ℚ := c + (m - c) * (3 / 20)

def lerpIter (m c : ℚ) : ℕ → ℚ
  | 0 => c
  | n + 1 => lerpIter m (lerpStep m c) n

def updateAll (mx my : ℚ) : ℕ → ℚ × ℚ → Option (ℚ × ℚ)
  | 0, _ => none
  | fuel + 1, p =>
    let cx := lerpStep mx p.1
    let cy := lerpStep my p.2
    if |mx - cx| < 1 / 2 ∧ |my - cy| < 1 / 2 then some (cx, cy)
    else updateAll mx my fuel (cx, cy)

/-- Each frame leaves 17/20 of the remaining distance to the raw pointer
position. -/
theorem lerpIter_dist (m : ℚ) : ∀ (n : ℕ) (c : ℚ),
    m - lerpIter m c n = (m - c) * (17 / 20) ^ n := by
  intro n
  induction n with
  | zero => intro c; simp [lerpIter]
  | succ k ih =>
    intro c
    have hstep : m - lerpStep m c = (m - c) * (17 / 20) := by
      unfold lerpStep; ring
    calc m - lerpIter m c (k + 1) = m - lerpIter m (lerpStep m c) k := rfl
      _ = (m - lerpStep m c) * (17 / 20) ^ k := ih (lerpStep m c)
      _ = (m - c) * (17 / 20) ^ (k + 1) := by rw [hstep]; ring

/-- If the eased position is within the 1/2 stopping band on both axes after
n+1 frames, the loop with n+1 frames of fuel stops by itself at a point
within the band. -/
theorem updateAll_of_converged (mx my : ℚ) : ∀ (n : ℕ) (p : ℚ × ℚ),
    |mx - lerpIter mx p.1 (n + 1)| < 1 / 2 → |my - lerpIter my p.2 (n + 1)| < 1 / 2 →
    ∃ q : ℚ × ℚ, updateAll mx my (n + 1) p = some q
      ∧ |mx - q.1| < 1 / 2 ∧ |my - q.2| < 1 / 2 := by
  intro n
  induction n with
  | zero =>
    intro p hx hy
    have hx1 : |mx - lerpStep mx p.1| < 1 / 2 := hx
    have hy1 : |my - lerpStep my p.2| < 1 / 2 := hy
    refine ⟨(lerpStep mx p.1, lerpStep my p.2), ?_, hx1, hy1⟩
    unfold updateAll
    rw [if_pos ⟨hx1, hy1⟩]
  | succ k ih =>
    intro p hx hy
    by_cases hc : |mx - lerpStep mx p.1| < 1 / 2 ∧ |my - lerpStep my p.2| < 1 / 2
    · refine ⟨(lerpStep mx p.1, lerpStep my p.2), ?_, hc.1, hc.2⟩
      unfold updateAll
      rw [if_pos hc]
    · have hx' : |mx - lerpIter mx (lerpStep mx p.1) (k + 1)| < 1 / 2 := hx
      have hy' : |my - lerpIter my (lerpStep my p.2) (k + 1)| < 1 / 2 := hy
      obtain ⟨q, hq, hqx, hqy⟩ := ih (lerpStep mx p.1, lerpStep my p.2) hx' hy'
      refine ⟨q, ?_, hqx, hqy⟩
      unfold updateAll
      rw [if_neg hc]
      exact hq

/-- Geometric decay: for any starting distance the per-frame factor 17/20
drives the remaining distance below 1/2 after finitely many frames. -/
theorem exists_frame_small (d : ℚ) : ∃ n : ℕ, |d| * (17 / 20) ^ n < 1 / 2 := by
  obtain ⟨n, hn⟩ := exists_pow_lt_of_lt_one
    (show (0 : ℚ) < 1 / (2 * (|d| + 1)) from by positivity)
    (show (17 / 20 : ℚ) < 1 from by norm_num)
  refine ⟨n, ?_⟩
  have hd1 : (0 : ℚ) < |d| + 1 := by positivity
  have h1 : |d| * (17 / 20) ^ n ≤ (|d| + 1) * (17 / 20) ^ n :=
    mul_le_mul_of_nonneg_right (by linarith) (by positivity)
  have h2 : (|d| + 1) * (17 / 20) ^ n < (|d| + 1) * (1 / (2 * (|d| + 1))) :=
    mul_lt_mul_of_pos_left hn hd1
  have h3 : (|d| + 1) * (1 / (2 * (|d| + 1))) = 1 / 2 := by
    field_simp
    ring
  linarith

/-- C8: for every fixed raw pointer position and every starting eased
position, the cursor easing loop terminates: with enough frames of fuel it
reaches a point within 1/2 display-units of the raw position on both axes,
at which point it clears the cursorActive flag and stops rescheduling. -/
theorem updateAll_terminates (mx my cx cy : ℚ) :
    ∃ (n : ℕ) (p : ℚ × ℚ), updateAll mx my n (cx, cy) = some p
      ∧ |mx - p.1| < 1 / 2 ∧ |my - p.2| < 1 / 2 := by
  obtain ⟨n1, h1⟩ := exists_frame_small (mx - cx)
  obtain ⟨n2, h2⟩ := exists_frame_small (my - cy)
  have hq0 : (0 : ℚ) ≤ 17 / 20 := by norm_num
  have hq1 : (17 / 20 : ℚ) ≤ 1 := by norm_num
  have hdist : ∀ (m c : ℚ) (k j : ℕ), j ≤ k → |m - c| * (17 / 20) ^ j < 1 / 2 →
      |m - lerpIter m c k| < 1 / 2 := by
    intro m c k j hjk hsmall
    rw [lerpIter_dist, abs_mul, abs_of_nonneg (by positivity : (0 : ℚ) ≤ (17 / 20) ^ k)]
    have hk : (17 / 20 : ℚ) ^ k ≤ (17 / 20 : ℚ) ^ j := pow_le_pow_of_le_one hq0 hq1 hjk
    have := mul_le_mul_of_nonneg_left hk (abs_nonneg (m - c))
    linarith
  set N := max n1 n2 with hN
  obtain ⟨q, hq, hqx, hqy⟩ := updateAll_of_converged mx my N (cx, cy)
    (hdist mx cx (N + 1) n1 (by omega) h1)
    (hdist my cy (N + 1) n2 (by omega) h2)
  exact ⟨N + 1, q, hq, hqx, hqy⟩

/-! ## Typing effect (script.js, initTypingEffect)

JavaScript:
  const texts = [...];
  let textIndex = 0, charIndex = 0, isDeleting = false;
  function type() \x7b
    const currentText = texts[textIndex];
    if (isDeleting) \x7b
      DOM.typingElement.textContent = currentText.substring(0, --charIndex);
    \x7d else \x7b
      DOM.typingElement.textContent = currentText.substring(0, ++charIndex);
    \x7d
    if (!isDeleting && charIndex === currentText.length) \x7b
      isDeleting = true;
    \x7d else if (isDeleting && charIndex === 0) \x7b
      isDeleting = false;
      textIndex = (textIndex + 1) % texts.length;
    \x7d
    setTimeout(type, speed);
  \x7d
Phrases are modelled as lists of characters; substring(0, n) is List.take n.
Each tick returns the successor state and the string displayed by that
tick. -/
structure TypingState where
  textIndex : ℕ
  charIndex : ℕ
  isDeleting : Bool
deriving DecidableEq

def typeTick (T : List (List Char)) (s : TypingState) : TypingState × List Char :=
  let currentText := T.getD s.textIndex []
  if s.isDeleting then
    let c := s.charIndex - 1
    let shown := currentText.take c
    if c = 0 then (⟨(s.textIndex + 1) % T.length, 0, false⟩, shown)
    else (⟨s.textIndex, c, true⟩, shown)
  else
    let c := s.charIndex + 1
    let shown := currentText.take c
    if c = currentText.length then (⟨s.textIndex, c, true⟩, shown)
    else (⟨s.textIndex, c, false⟩, shown)

/-- State after n ticks. -/
def typeRunState (T : List (List Char)) : TypingState → ℕ → TypingState
  | s, 0 => s
  | s, n + 1 => typeRunState T (typeTick T s).1 n

/-- Sequence of displayed strings over n ticks. -/
def typeRunShown (T : List (List Char)) : TypingState → ℕ → List (List Char)
  | _, 0 => []
  | s, n + 1 => (typeTick T s).2 :: typeRunShown T (typeTick T s).1 n

/-- The phrase list of initTypingEffect. -/
def texts : List (List Char) :=
  [String.toList "App Developer", String.toList "Flutter Expert",
   String.toList "Kotlin Enthusiast", String.toList "Web Developer",
   String.toList "UI/UX Designer"]

theorem typeRunState_succ (T : List (List Char)) (s : TypingState) (n : ℕ) :
    typeRunState T s (n + 1) = typeRunState T (typeTick T s).1 n := rfl

theorem typeRunShown_succ (T : List (List Char)) (s : TypingState) (n : ℕ) :
    typeRunShown T s (n + 1) = (typeTick T s).2 :: typeRunShown T (typeTick T s).1 n := rfl

theorem typeRunState_add (T : List (List Char)) (a b : ℕ) : ∀ s : TypingState,
    typeRunState T s (a + b) = typeRunState T (typeRunState T s a) b := by
  induction a with
  | zero => intro s; rw [Nat.zero_add]; rfl
  | succ k ih =>
    intro s
    have h : k + 1 + b = (k + b) + 1 := by omega
    rw [h]
    show typeRunState T (typeTick T s).1 (k + b) = _
    rw [ih]
    rfl

theorem typeRunShown_add (T : List (List Char)) (a b : ℕ) : ∀ s : TypingState,
    typeRunShown T s (a + b)
      = typeRunShown T s a ++ typeRunShown T (typeRunState T s a) b := by
  induction a with
  | zero => intro s; rw [Nat.zero_add]; rfl
  | succ k ih =>
    intro s
    have h : k + 1 + b = (k + b) + 1 := by omega
    rw [h]
    show (typeTick T s).2 :: typeRunShown T (typeTick T s).1 (k + b) = _
    rw [ih]
    rfl

theorem typeTick_typing_unfold (T : List (List Char)) (i j : ℕ) :
    typeTick T ⟨i, j, false⟩
      = (if j + 1 = (T.getD i []).length
          then ((⟨i, j + 1, true⟩ : TypingState), (T.getD i []).take (j + 1))
          else ((⟨i, j + 1, false⟩ : TypingState), (T.getD i []).take (j + 1))) := rfl

theorem typeTick_typing (T : List (List Char)) (i j : ℕ)
    (h : ¬ j + 1 = (T.getD i []).length) :
    typeTick T ⟨i, j, false⟩ = (⟨i, j + 1, false⟩, (T.getD i []).take (j + 1)) := by
  rw [typeTick_typing_unfold, if_neg h]

theorem typeTick_typing_last (T : List (List Char)) (i j : ℕ)
    (h : j + 1 = (T.getD i []).length) :
    typeTick T ⟨i, j, false⟩ = (⟨i, j + 1, true⟩, (T.getD i []).take (j + 1)) := by
  rw [typeTick_typing_unfold, if_pos h]

theorem typeTick_deleting_unfold (T : List (List Char)) (i c : ℕ) :
    typeTick T ⟨i, c, true⟩
      = (if c - 1 = 0
          then ((⟨(i + 1) % T.length, 0, false⟩ : TypingState), (T.getD i []).take (c - 1))
          else ((⟨i, c - 1, true⟩ : TypingState), (T.getD i []).take (c - 1))) := rfl

theorem typeTick_deleting (T : List (List Char)) (i c : ℕ) (h : 2 ≤ c) :
    typeTick T ⟨i, c, true⟩ = (⟨i, c - 1, true⟩, (T.getD i []).take (c - 1)) := by
  have h0 : ¬ (c - 1 = 0) := by omega
  rw [typeTick_deleting_unfold, if_neg h0]

theorem typeTick_deleting_last (T : List (List Char)) (i : ℕ) :
    typeTick T ⟨i, 1, true⟩ = (⟨(i + 1) % T.length, 0, false⟩, []) := rfl

/-- Typing phase: from phrase i at j typed characters, the remaining n ticks
type one character each, displaying the successive longer prefixes, ending
with the full phrase shown and the machine switched to deleting. -/
theorem typing_phase (T : List (List Char)) (i : ℕ) :
    ∀ n j : ℕ, j + n = (T.getD i []).length → 1 ≤ n →
      typeRunState T ⟨i, j, false⟩ n = ⟨i, (T.getD i []).length, true⟩
      ∧ typeRunShown T ⟨i, j, false⟩ n
          = (List.range n).map (fun k => (T.getD i []).take (j + k + 1)) := by
  intro n
  induction n with
  | zero => intro j _ h1; exact absurd h1 (by omega)
  | succ k ih =>
    intro j hjm _
    by_cases hk : k = 0
    · subst hk
      have hc : j + 1 = (T.getD i []).length := by omega
      rw [typeRunState_succ, typeRunShown_succ, typeTick_typing_last T i j hc]
      constructor
      · show (⟨i, j + 1, true⟩ : TypingState) = _
        rw [hc]
      · rfl
    · have hk1 : 1 ≤ k := by omega
      have hne : ¬ j + 1 = (T.getD i []).length := by omega
      rw [typeRunState_succ, typeRunShown_succ, typeTick_typing T i j hne]
      obtain ⟨ihs, ihh⟩ := ih (j + 1) (by omega) hk1
      refine ⟨ihs, ?_⟩
      rw [ihh, List.range_succ_eq_map, List.map_cons, List.map_map]
      congr 1
      apply List.map_congr_left
      intro t _
      show (T.getD i []).take (j + 1 + t + 1) = (T.getD i []).take (j + (t + 1) + 1)
      have he : j + 1 + t + 1 = j + (t + 1) + 1 := by omega
      rw [he]

/-- Deleting phase: from phrase i fully or partly shown with c characters,
c ticks delete one character each, displaying the successive shorter
prefixes down to the empty string, and the machine moves to the start of the
next phrase index modulo the phrase count. -/
theorem deleting_phase (T : List (List Char)) (i : ℕ) :
    ∀ c : ℕ, 1 ≤ c →
      typeRunState T ⟨i, c, true⟩ c = ⟨(i + 1) % T.length, 0, false⟩
      ∧ typeRunShown T ⟨i, c, true⟩ c
          = (List.range c).map (fun k => (T.getD i []).take (c - 1 - k)) := by
  intro c
  induction c with
  | zero => intro h; exact absurd h (by omega)
  | succ k ih =>
    intro _
    by_cases hk : k = 0
    · subst hk
      rw [typeRunState_succ, typeRunShown_succ, typeTick_deleting_last T i]
      exact ⟨rfl, rfl⟩
    · have hk2 : 2 ≤ k + 1 := by omega
      rw [typeRunState_succ, typeRunShown_succ, typeTick_deleting T i (k + 1) hk2]
      obtain ⟨ihs, ihh⟩ := ih (by omega)
      refine ⟨ihs, ?_⟩
      rw [show k + 1 - 1 = k from rfl, ihh, List.range_succ_eq_map, List.map_cons,
        List.map_map]
      congr 1
      apply List.map_congr_left
      intro t _
      show (T.getD i []).take (k - 1 - t) = (T.getD i []).take (k + 1 - 1 - (t + 1))
      have he : k - 1 - t = k + 1 - 1 - (t + 1) := by omega
      rw [he]

/-- One full cycle on phrase i (any nonempty phrase list): 2·len ticks type
the phrase character by character, show it fully, delete it character by
character down to the empty string, and restart at the next phrase index
modulo the phrase count. -/
theorem typing_cycle (T : List (List Char)) (i : ℕ)
    (hm : 1 ≤ (T.getD i []).length) :
    typeRunState T ⟨i, 0, false⟩ (2 * (T.getD i []).length)
      = ⟨(i + 1) % T.length, 0, false⟩
    ∧ typeRunShown T ⟨i, 0, false⟩ (2 * (T.getD i []).length)
        = (List.range (T.getD i []).length).map (fun k => (T.getD i []).take (k + 1))
          ++ (List.range (T.getD i []).length).map
              (fun k => (T.getD i []).take ((T.getD i []).length - 1 - k)) := by
  obtain ⟨hs1, hh1⟩ := typing_phase T i (T.getD i []).length 0 (by omega) hm
  obtain ⟨hs2, hh2⟩ := deleting_phase T i (T.getD i []).length hm
  have h2m : 2 * (T.getD i []).length = (T.getD i []).length + (T.getD i []).length := by
    omega
  constructor
  · rw [h2m, typeRunState_add, hs1, hs2]
  · rw [h2m, typeRunShown_add, hs1, hh1, hh2]
    congr 1
    apply List.map_congr_left
    intro t _
    have he : 0 + t + 1 = t + 1 := by omega
    rw [he]

/-- C4: for the fixed phrase list of initTypingEffect, from the start of any
phrase i the next 2·len ticks display exactly the increasing prefixes of
phrase i (so the fully-typed phrase is displayed at tick len), then the
decreasing prefixes down to the empty string, and the machine arrives at the
start of phrase (i+1) mod 5 — hence an unbounded run displays the phrases
cyclically, each fully-typed phrase followed by a character-by-character
deletion to empty. -/
theorem typing_widget_cycles (i : ℕ) (hi : i < texts.length) :
    typeRunState texts ⟨i, 0, false⟩ (2 * (texts.getD i []).length)
      = ⟨(i + 1) % texts.length, 0, false⟩
    ∧ typeRunShown texts ⟨i, 0, false⟩ (2 * (texts.getD i []).length)
        = (List.range (texts.getD i []).length).map (fun k => (texts.getD i []).take (k + 1))
          ++ (List.range (texts.getD i []).length).map
              (fun k => (texts.getD i []).take ((texts.getD i []).length - 1 - k))
    ∧ (typeRunShown texts ⟨i, 0, false⟩ (2 * (texts.getD i []).length)).getD
        ((texts.getD i []).length - 1) [] = texts.getD i [] := by
  have h5 : texts.length = 5 := rfl
  have hi5 : i < 5 := by omega
  have hm : 1 ≤ (texts.getD i []).length := by interval_cases i <;> decide
  obtain ⟨h1, h2⟩ := typing_cycle texts i hm
  refine ⟨h1, h2, ?_⟩
  rw [h2]
  have hlenA : ((List.range (texts.getD i []).length).map
      (fun k => (texts.getD i []).take (k + 1))).length = (texts.getD i []).length := by
    rw [List.length_map, List.length_range]
  have hlt : (texts.getD i []).length - 1 < (texts.getD i []).length := by omega
  rw [List.getD_append _ _ _ _ (by rw [hlenA]; omega)]
  rw [List.getD_eq_getElem _ _ (by rw [hlenA]; omega)]
  simp only [List.getElem_map, List.getElem_range]
  rw [show (texts.getD i []).length - 1 + 1 = (texts.getD i []).length from by omega]
  exact List.take_length _

/-- Witness for C4 at phrase 0 ("App Developer", 13 characters): 26 ticks
display the 13 increasing prefixes then the 13 decreasing ones, ending empty,
and the machine restarts at phrase 1. -/
theorem typing_widget_cycles_witness :
    typeRunState texts ⟨0, 0, false⟩ (2 * (texts.getD 0 []).length)
      = ⟨(0 + 1) % texts.length, 0, false⟩
    ∧ typeRunShown texts ⟨0, 0, false⟩ (2 * (texts.getD 0 []).length)
        = (List.range (texts.getD 0 []).length).map (fun k => (texts.getD 0 []).take (k + 1))
          ++ (List.range (texts.getD 0 []).length).map
              (fun k => (texts.getD 0 []).take ((texts.getD 0 []).length - 1 - k))
    ∧ (typeRunShown texts ⟨0, 0, false⟩ (2 * (texts.getD 0 []).length)).getD
        ((texts.getD 0 []).length - 1) [] = texts.getD 0 [] :=
  typing_widget_cycles 0 (by decide)

end Portfolio
